import Mathlib

/-!
# Verification of the drovp/upscale media-upscaling pipeline

Shallow embedding of the pure decision logic of `src/processor.ts` and
`src/utils.ts` (timestamp parsing, the ffmpeg progress/log splitter, the
directory-clone progress poller, the cleanup ledger, process outcome
resolution, container/audio argument resolution, model scale resolution,
and the file-effect traces of the image and video pipelines), together
with theorems settling the specification claims.

Strings manipulated by the JS code are embedded as `List Char`; JS
numbers arising from timestamp arithmetic are embedded as `ℚ` (all the
values involved are exactly representable); `NaN` produced by a failed
`parseInt`/`parseFloat` is embedded as `none` of an `Option`.
-/

namespace Upscale

/-- The character list of a string literal. -/
def lit (s : String) : List Char := s.data

/-- JS `String.prototype.split(sep)` for a one-character separator:
splits into the (possibly empty) chunks between occurrences of `sep`.
`"".split(c) = [""]`, `"a.".split(".") = ["a", ""]`. -/
def splitOnChar (sep : Char) : List Char → List (List Char)
  | [] => [[]]
  | c :: rest =>
    if c = sep then [] :: splitOnChar sep rest
    else
      match splitOnChar sep rest with
      | [] => [[c]]
      | g :: gs => (c :: g) :: gs

/-- Numeric value of a list of decimal digit characters. -/
def natOfDigits (s : List Char) : Nat :=
  s.foldl (fun a c => a * 10 + (c.toNat - ('0').toNat)) 0

/-- JS `parseInt(s, 10)` restricted to the inputs produced at its call
sites here (chunks of `:`-separated timestamps and captured digit runs):
the longest leading run of decimal digits is converted; an input with no
leading digit yields `NaN`, embedded as `none`. -/
def jsParseIntDec (s : List Char) : Option Nat :=
  let d := s.takeWhile Char.isDigit
  if d = [] then none else some (natOfDigits d)

/-- JS `parseFloat("." ++ s)` for the fractional chunk of a timestamp:
the longest leading digit run `d` of `s` yields `d / 10 ^ |d|`; no
leading digit yields `NaN` (`parseFloat(".")` is `NaN`), embedded as
`none`. -/
def jsParseFloatFrac (s : List Char) : Option ℚ :=
  let d := s.takeWhile Char.isDigit
  if d = [] then none else some ((natOfDigits d : ℚ) / 10 ^ d.length)

/-- Contribution of one popped `:`-chunk of a timestamp: a missing chunk
(`none`) contributes `0`, a present chunk that parsed to `NaN`
(`some none`) poisons the result, a parsed chunk contributes its value
times `mult`. -/
def timeComponent (p : Option (Option Nat)) (mult : ℚ) : Option ℚ :=
  match p with
  | some (some n) => some ((n : ℚ) * mult)
  | some none => none
  | none => some 0

/-- `isoTimeToMS` from `src/utils.ts` (lines 35-48). Splits on `.`;
the fractional chunk (when present and nonempty) contributes
`parseFloat("." ++ frac) * 1000`; the part before the first `.` is split
on `:`, empty chunks are dropped (JS `filter(x => x)`), each chunk is
`parseInt`-ed, and the rightmost three chunks contribute seconds,
minutes and hours; missing chunks contribute zero. A `NaN` arising in
the fraction or in a popped chunk makes the whole result `NaN`
(embedded as `none`). -/
def isoTimeToMS (text : List Char) : Option ℚ :=
  let split := splitOnChar '.' text
  let fracMS : Option ℚ :=
    match split.get? 1 with
    | some s =>
      if s = [] then some 0
      else
        match jsParseFloatFrac s with
        | some q => some (q * 1000)
        | none => none
    | none => some 0
  let parts := ((splitOnChar ':' (split.headD [])).filter (· ≠ [])).map jsParseIntDec
  let rev := parts.reverse
  match fracMS, timeComponent (rev.get? 0) 1000,
      timeComponent (rev.get? 1) (1000 * 60),
      timeComponent (rev.get? 2) (1000 * 60 * 60) with
  | some f, some s, some m, some h => some (f + s + m + h)
  | _, _, _, _ => none

/-- All characters are decimal digits. -/
def allDigits (s : List Char) : Prop := ∀ c ∈ s, c.isDigit

instance (s : List Char) : Decidable (allDigits s) := by
  unfold allDigits; infer_instance

theorem splitOnChar_ne_nil (sep : Char) (s : List Char) : splitOnChar sep s ≠ [] := by
  cases s with
  | nil => simp [splitOnChar]
  | cons c rest =>
    by_cases h : c = sep <;> simp only [splitOnChar, h, if_true, if_false, reduceIte]
    · simp
    · split <;> simp_all

theorem splitOnChar_not_mem (sep : Char) (s : List Char) (h : sep ∉ s) :
    splitOnChar sep s = [s] := by
  induction s with
  | nil => rfl
  | cons c rest ih =>
    have h1 : ¬c = sep := fun hh => h (by simp [hh])
    have h2 : sep ∉ rest := fun hm => h (List.mem_cons_of_mem _ hm)
    simp only [splitOnChar, if_neg h1, ih h2]

theorem splitOnChar_append (sep : Char) (xs ys : List Char) (h : sep ∉ xs) :
    splitOnChar sep (xs ++ sep :: ys) = xs :: splitOnChar sep ys := by
  induction xs with
  | nil => simp [splitOnChar]
  | cons c rest ih =>
    have h1 : ¬c = sep := fun hh => h (by simp [hh])
    have h2 : sep ∉ rest := fun hm => h (List.mem_cons_of_mem _ hm)
    simp only [List.cons_append, splitOnChar, if_neg h1, List.append_eq]
    rw [ih h2]

theorem digits_no_colon {s : List Char} (h : allDigits s) : (':') ∉ s := by
  intro hm
  have := h _ hm
  simp [Char.isDigit] at this

theorem digits_no_dot {s : List Char} (h : allDigits s) : ('.') ∉ s := by
  intro hm
  have := h _ hm
  simp [Char.isDigit] at this

theorem takeWhile_digits {s : List Char} (h : allDigits s) :
    s.takeWhile Char.isDigit = s := by
  induction s with
  | nil => rfl
  | cons c rest ih =>
    simp only [List.takeWhile_cons]
    rw [if_pos (h c (by simp))]
    rw [ih fun x hx => h x (by simp [hx])]

theorem jsParseIntDec_digits {s : List Char} (h : allDigits s) (hne : s ≠ []) :
    jsParseIntDec s = some (natOfDigits s) := by
  unfold jsParseIntDec
  rw [takeWhile_digits h]
  simp [hne]

theorem jsParseFloatFrac_digits {s : List Char} (h : allDigits s) (hne : s ≠ []) :
    jsParseFloatFrac s = some ((natOfDigits s : ℚ) / 10 ^ s.length) := by
  unfold jsParseFloatFrac
  rw [takeWhile_digits h]
  simp [hne]

/-- The value of a full `H:MM:SS.fff` timestamp. -/
theorem isoTimeToMS_hms (H M S F : List Char)
    (hH : allDigits H) (hHne : H ≠ []) (hM : allDigits M) (hMne : M ≠ [])
    (hS : allDigits S) (hSne : S ≠ []) (hF : allDigits F) (hFne : F ≠ []) :
    isoTimeToMS (H ++ ':' :: M ++ ':' :: S ++ '.' :: F) =
      some ((natOfDigits F : ℚ) / 10 ^ F.length * 1000 +
        natOfDigits S * 1000 + natOfDigits M * (1000 * 60) +
        natOfDigits H * (1000 * 60 * 60)) := by
  have hdot : ('.') ∉ H ++ ':' :: (M ++ ':' :: S) := by
    intro hm
    simp only [List.mem_append, List.mem_cons] at hm
    rcases hm with h | h | h | h | h
    · exact digits_no_dot hH h
    · exact absurd h (by decide)
    · exact digits_no_dot hM h
    · exact absurd h (by decide)
    · exact digits_no_dot hS h
  have h1 : splitOnChar '.' ((H ++ ':' :: (M ++ ':' :: S)) ++ '.' :: F) =
      (H ++ ':' :: (M ++ ':' :: S)) :: splitOnChar '.' F :=
    splitOnChar_append _ _ _ hdot
  have h2 : splitOnChar '.' F = [F] := splitOnChar_not_mem _ _ (digits_no_dot hF)
  have h4 : splitOnChar ':' (M ++ ':' :: S) = M :: splitOnChar ':' S :=
    splitOnChar_append _ _ _ (digits_no_colon hM)
  have h5 : splitOnChar ':' S = [S] := splitOnChar_not_mem _ _ (digits_no_colon hS)
  have h3 : splitOnChar ':' (H ++ ':' :: (M ++ ':' :: S)) = [H, M, S] := by
    rw [splitOnChar_append _ _ _ (digits_no_colon hH), h4, h5]
  have heq : H ++ ':' :: M ++ ':' :: S ++ '.' :: F =
      (H ++ ':' :: (M ++ ':' :: S)) ++ '.' :: F := by simp
  unfold isoTimeToMS
  rw [heq, h1, h2]
  simp only [List.headD_cons, List.get?_cons_succ, List.get?_cons_zero]
  rw [h3]
  have hfil : List.filter (fun x => decide (x ≠ [])) [H, M, S] = [H, M, S] := by
    simp [hHne, hMne, hSne]
  rw [hfil]
  simp only [List.map_cons, List.map_nil]
  rw [jsParseFloatFrac_digits hF hFne, jsParseIntDec_digits hH hHne,
    jsParseIntDec_digits hM hMne, jsParseIntDec_digits hS hSne]
  simp only [List.reverse_cons, List.reverse_nil, List.nil_append, List.cons_append,
    List.append_nil, List.get?_cons_succ, List.get?_cons_zero, timeComponent]
  rw [if_neg hFne]

/-- The value of an `MM:SS.fff` timestamp. -/
theorem isoTimeToMS_msf (M S F : List Char)
    (hM : allDigits M) (hMne : M ≠ []) (hS : allDigits S) (hSne : S ≠ [])
    (hF : allDigits F) (hFne : F ≠ []) :
    isoTimeToMS (M ++ ':' :: S ++ '.' :: F) =
      some ((natOfDigits F : ℚ) / 10 ^ F.length * 1000 +
        natOfDigits S * 1000 + natOfDigits M * (1000 * 60)) := by
  have hdot : ('.') ∉ M ++ ':' :: S := by
    intro hm
    simp only [List.mem_append, List.mem_cons] at hm
    rcases hm with h | h | h
    · exact digits_no_dot hM h
    · exact absurd h (by decide)
    · exact digits_no_dot hS h
  have h1 : splitOnChar '.' ((M ++ ':' :: S) ++ '.' :: F) =
      (M ++ ':' :: S) :: splitOnChar '.' F :=
    splitOnChar_append _ _ _ hdot
  have h2 : splitOnChar '.' F = [F] := splitOnChar_not_mem _ _ (digits_no_dot hF)
  have h5 : splitOnChar ':' S = [S] := splitOnChar_not_mem _ _ (digits_no_colon hS)
  have h3 : splitOnChar ':' (M ++ ':' :: S) = [M, S] := by
    rw [splitOnChar_append _ _ _ (digits_no_colon hM), h5]
  have heq : M ++ ':' :: S ++ '.' :: F = (M ++ ':' :: S) ++ '.' :: F := by simp
  unfold isoTimeToMS
  rw [heq, h1, h2]
  simp only [List.headD_cons, List.get?_cons_succ, List.get?_cons_zero]
  rw [h3]
  have hfil : List.filter (fun x => decide (x ≠ [])) [M, S] = [M, S] := by
    simp [hMne, hSne]
  rw [hfil]
  simp only [List.map_cons, List.map_nil]
  rw [jsParseFloatFrac_digits hF hFne, jsParseIntDec_digits hM hMne,
    jsParseIntDec_digits hS hSne]
  simp only [List.reverse_cons, List.reverse_nil, List.nil_append, List.cons_append,
    List.append_nil, List.get?_cons_succ, List.get?_cons_zero, timeComponent]
  rw [if_neg hFne]
  simp only [List.append_eq, List.nil_append, List.get?_cons_succ, List.get?_cons_zero,
    timeComponent, List.get?_nil]
  ring_nf

/-- The value of a bare `SS` timestamp (no fraction). -/
theorem isoTimeToMS_s (S : List Char) (hS : allDigits S) (hSne : S ≠ []) :
    isoTimeToMS S = some ((natOfDigits S : ℚ) * 1000) := by
  have h2 : splitOnChar '.' S = [S] := splitOnChar_not_mem _ _ (digits_no_dot hS)
  have h5 : splitOnChar ':' S = [S] := splitOnChar_not_mem _ _ (digits_no_colon hS)
  unfold isoTimeToMS
  rw [h2]
  simp only [List.headD_cons, List.get?_cons_zero, List.get?_cons_succ, List.get?_nil]
  rw [h5]
  have hfil : List.filter (fun x => decide (x ≠ [])) [S] = [S] := by simp [hSne]
  rw [hfil]
  simp only [List.map_cons, List.map_nil]
  rw [jsParseIntDec_digits hS hSne]
  simp only [List.reverse_cons, List.reverse_nil, List.nil_append,
    List.get?_cons_zero, List.get?_cons_succ, List.get?_nil, timeComponent]
  ring_nf

/-! ## The ffmpeg progress-or-log splitter (`makeFfmpegProgressOrLogSplitter`) -/

/-- Character class `[\d\:\.]` of the `time=`/`Duration:` regexes. -/
def isTimeClassChar (c : Char) : Bool := c.isDigit || c = ':' || c = '.'

/-- JS `String.prototype.trim()`: strip whitespace from both ends. -/
def jsTrim (s : List Char) : List Char :=
  ((s.dropWhile Char.isWhitespace).reverse.dropWhile Char.isWhitespace).reverse

/-- First match of `/time=([\d\:\.]+)/` in a string: at each scan
position, the literal `time=` followed by a nonempty maximal run of
class characters succeeds; otherwise scanning advances one character
(the character class excludes nothing that could extend a failed
match, so maximal-run matching at every start position is exactly the
backtracking behaviour). -/
def execTimeCapture : List Char → Option (List Char)
  | [] => none
  | c :: rest =>
    if (lit "time=").isPrefixOf (c :: rest) then
      let run := ((c :: rest).drop 5).takeWhile isTimeClassChar
      if run = [] then execTimeCapture rest else some run
    else execTimeCapture rest

/-- Match of `/^ *Duration: *([\d\:\.]+),/` against one line: leading
spaces, the literal `Duration:`, spaces, a nonempty maximal run of
class characters, then a comma (the class excludes the comma, so no
backtracking can produce a different capture). -/
def durationLineCapture (line : List Char) : Option (List Char) :=
  let afterIndent := line.dropWhile (· = ' ')
  if (lit "Duration:").isPrefixOf afterIndent then
    let rest := (afterIndent.drop 9).dropWhile (· = ' ')
    let run := rest.takeWhile isTimeClassChar
    if run ≠ [] ∧ rest.get? run.length = some ',' then some run else none
  else none

/-- First match of the multiline `Duration:` regex over the recent
output buffer: the `m` flag anchors `^` at the start of each
`\n`-separated line, so the first line with a match wins. -/
def durationCapture (recent : List Char) : Option (List Char) :=
  (splitOnChar '\n' recent).findSome? durationLineCapture

/-- `recentOutput.slice(-1000)`: the last (at most) `n` characters. -/
def takeLast (n : Nat) (l : List Char) : List Char := l.drop (l.length - n)

/-- State closed over by the splitter returned by
`makeFfmpegProgressOrLogSplitter` (utils.ts lines 191-226). -/
structure SplitterState where
  recentOutput : List Char
  duration : ℚ
  durationWontHappen : Bool
deriving DecidableEq

def initSplitter : SplitterState := ⟨[], 0, false⟩

inductive SplitterEvent
  | progressEv (elapsed total : ℚ)
  | logEv (message : List Char)
deriving DecidableEq

/-- Does the trimmed message start with `frame=` or `size=`? -/
def isProgressChunk (m : List Char) : Bool :=
  (lit "frame=").isPrefixOf (jsTrim m) || (lit "size=").isPrefixOf (jsTrim m)

/-- One invocation of the splitter on a message (utils.ts lines
196-225): append to the ring buffer; a `frame=`/`size=` message sets
`durationWontHappen` and, when a total duration is known and the
message carries a parseable `time=` token not exceeding it, emits a
progress event; any other message may establish the duration (only
while it is unset and not yet abandoned) and is forwarded to the log. -/
def splitterProgressEvents (st : SplitterState) (message : List Char) :
    List SplitterEvent :=
  if st.duration ≠ 0 then
    match execTimeCapture message with
    | some cap =>
      match isoTimeToMS cap with
      | some ms => if ms ≤ st.duration then [.progressEv ms st.duration] else []
      | none => []
    | none => []
  else []

/-- The duration after processing a non-`frame=`/`size=` message with
ring buffer contents `recent`: attempted extraction only while the
duration is unset (falsy) and not yet abandoned; a failed parse
(`NaN`) falls back to 0 via `|| 0`. -/
def splitterNewDuration (st : SplitterState) (recent : List Char) : ℚ :=
  if st.duration = 0 ∧ st.durationWontHappen = false then
    match durationCapture recent with
    | some cap => (isoTimeToMS cap).getD 0
    | none => st.duration
  else st.duration

def splitterStep (st : SplitterState) (message : List Char) :
    SplitterState × List SplitterEvent :=
  if (lit "frame=").isPrefixOf (jsTrim message)
      || (lit "size=").isPrefixOf (jsTrim message) then
    (⟨takeLast 1000 (st.recentOutput ++ message), st.duration, true⟩,
      splitterProgressEvents st message)
  else
    (⟨takeLast 1000 (st.recentOutput ++ message),
        splitterNewDuration st (takeLast 1000 (st.recentOutput ++ message)),
        st.durationWontHappen⟩,
      [.logEv message])

/-- Feed a list of messages through the splitter, collecting events. -/
def runSplitter (st : SplitterState) :
    List (List Char) → SplitterState × List SplitterEvent
  | [] => (st, [])
  | m :: ms =>
    let r := splitterStep st m
    let r2 := runSplitter r.1 ms
    (r2.1, r.2 ++ r2.2)

/-- A progress event is well formed when elapsed does not exceed total. -/
def eventOk : SplitterEvent → Bool
  | .progressEv e t => decide (e ≤ t)
  | .logEv _ => true

/-! ## The directory-clone progress poller (`makeDirCloneCleaner`) -/

/-- Node `Path.extname` for a bare file name: the suffix from the last
`.`, unless that dot is the leading character (a dotfile has no
extension). -/
def pathExtname (file : List Char) : List Char :=
  match file.reverse.findIdx? (· = '.') with
  | some i =>
    let p := file.length - 1 - i
    if p > 0 then file.drop p else []
  | none => []

/-- `getFilename` from utils.ts: `Path.basename(path, Path.extname(path))`,
i.e. the name with its extension stripped. -/
def getFilename (file : List Char) : List Char :=
  file.take (file.length - (pathExtname file).length)

/-- JS `Map.set`: overwrite in place if the key exists, else append. -/
def mapSet (m : List (List Char × List Char)) (k v : List Char) :
    List (List Char × List Char) :=
  if (m.find? (fun p => p.1 == k)).isSome then
    m.map (fun p => if p.1 == k then (k, v) else p)
  else m ++ [(k, v)]

/-- The first-tick snapshot of the source directory: a map from each
file name (extension stripped) to its extension. -/
def snapshotSource (srcListing : List (List Char)) :
    List (List Char × List Char) :=
  srcListing.foldl (fun m f => mapSet m (getFilename f) (pathExtname f)) []

def mapLookup (m : List (List Char × List Char)) (k : List Char) :
    Option (List Char) :=
  (m.find? (fun p => p.1 == k)).map Prod.snd

/-- The destination-directory loop of one tick: collect the file names
not yet marked cloned, marking each as it is found. -/
def collectNew (cloned : List (List Char)) :
    List (List Char) → List (List Char)
  | [] => []
  | f :: rest =>
    let name := getFilename f
    if name ∈ cloned then collectNew cloned rest
    else name :: collectNew (cloned ++ [name]) rest

structure DirCloneState where
  sourceFiles : Option (List (List Char × List Char))
  cloned : List (List Char)
deriving DecidableEq

structure TickResult where
  state : DirCloneState
  report : Nat × Nat
  deleted : List (List Char)
deriving DecidableEq

/-- One polling tick of `makeDirCloneCleaner` (utils.ts lines 76-105):
snapshot the source directory on first run; mark every new destination
file name as cloned; delete the corresponding source file (name plus
the snapshot extension; a name missing from the snapshot interpolates
the JS `undefined`); report `(cloned, total)`. -/
def dirCloneTick (srcListing destListing : List (List Char))
    (st : DirCloneState) : TickResult :=
  let sourceFiles :=
    match st.sourceFiles with
    | some m => m
    | none => snapshotSource srcListing
  let newCloned := collectNew st.cloned destListing
  let cloned := st.cloned ++ newCloned
  let deleted := newCloned.map fun name =>
    match mapLookup sourceFiles name with
    | some ext => name ++ ext
    | none => name ++ lit "undefined"
  { state := ⟨some sourceFiles, cloned⟩
    report := (cloned.length, sourceFiles.length)
    deleted := deleted }

/-! ## The cleanup ledger (`Maid`) -/

/-- One cleanup task: mutates a world of type `σ` and either succeeds
or throws an error of type `ε`. -/
def MaidTask (σ ε : Type) := σ → σ × Except ε Unit

/-- The `Maid` class from utils.ts (lines 118-131): an ordered list of
deferred cleanup tasks. -/
structure Maid (σ ε : Type) where
  tasks : List (MaidTask σ ε)

/-- `maid.task(fn)`: append a task. -/
def Maid.task {σ ε : Type} (m : Maid σ ε) (fn : MaidTask σ ε) : Maid σ ε :=
  ⟨m.tasks ++ [fn]⟩

/-- `maid.run(fn)`: execute one task, catching and discarding any
thrown error (`try { await fn() } catch {}`) — only the world effect
remains. -/
def Maid.runTask {σ ε : Type} (s : σ) (fn : MaidTask σ ε) : σ := (fn s).1

/-- `maid.forget()`: clear without executing. -/
def Maid.forget {σ ε : Type} (_ : Maid σ ε) : Maid σ ε := ⟨[]⟩

/-- `maid.cleanup()`: execute every task in registration order, each
through `run` (errors swallowed), then clear the ledger. The return
type (a world, never an error) reflects that no task error can
propagate to the caller. -/
def Maid.cleanup {σ ε : Type} (m : Maid σ ε) (s : σ) : σ × Maid σ ε :=
  (m.tasks.foldl Maid.runTask s, ⟨[]⟩)

/-- A task that records its index in the world trace and then either
returns or throws, used to observe execution order. -/
def indexedTask (i : Nat) (throws : Bool) : MaidTask (List Nat) Unit :=
  fun trace => (trace ++ [i], if throws then .error () else .ok ())

/-! ## Process execution outcome (`execute`) -/

/-- Events observed by the promise executor inside `execute`
(utils.ts lines 151-185): data chunks on either stream, a
process-level `error` event, or a `close` event with an exit code
(`null` when the process was terminated by a signal). -/
inductive ExecEvent
  | stdoutData (chunk : List Char)
  | stderrData (chunk : List Char)
  | procError (message : List Char)
  | close (code : Option Int)
deriving DecidableEq

inductive ExecOutcome
  | pending
  | rejectedErr (message : List Char)
  | rejectedExit (message : List Char)
  | resolved
deriving DecidableEq

def intToChars (n : Int) : List Char := (toString n).data

/-- The one-shot `done` logic of `execute` (utils.ts lines 172-184):
the first terminal event decides the outcome; `done` then replaces
itself with a no-op so later events are ignored. An error event
rejects with that error; a close with a positive code rejects with
`Process exited with code N.`; any other close resolves. Data events
are forwarded to the callbacks and the log but never affect the
outcome. -/
def executeStep (o : ExecOutcome) (ev : ExecEvent) : ExecOutcome :=
  match o with
  | .pending =>
    match ev with
    | .procError e => .rejectedErr e
    | .close code =>
      match code with
      | some c =>
        if c > 0 then
          .rejectedExit (lit "Process exited with code " ++ intToChars c ++ lit ".")
        else .resolved
      | none => .resolved
    | _ => .pending
  | o => o

def executeOutcome (events : List ExecEvent) : ExecOutcome :=
  events.foldl executeStep .pending

/-- Data events never settle the promise. -/
def nonTerminalEvent : ExecEvent → Bool
  | .stdoutData _ => true
  | .stderrData _ => true
  | _ => false

/-- Is `needle` a contiguous substring of `hay`? (Used to state what an
error message does or does not carry.) -/
def containsSub (needle : List Char) : List Char → Bool
  | [] => needle.isEmpty
  | c :: rest => needle.isPrefixOf (c :: rest) || containsSub needle rest

/-! ## Container and audio resolution in the video pipeline -/

/-- Normalization of the probed container id (processor.ts lines
402-409): the id `matroska,webm` is shared by mkv and webm sources and
is disambiguated by the file extension or the presence of subtitles. -/
def normalizeInputContainer (rawContainer inputExtension : List Char)
    (hasSubtitles : Bool) : List Char :=
  if rawContainer = lit "matroska,webm" then
    if inputExtension = lit "mkv" || hasSubtitles then lit "mkv" else lit "webm"
  else rawContainer

def supportedVideoContainers : List (List Char) :=
  [lit "mp4", lit "webm", lit "mkv", lit "gif"]

/-- Output container resolution (processor.ts lines 410-415):
subtitles plus the ensure-subtitles option force mkv; otherwise the
inherit-container option reuses a directly supported input container;
otherwise the preferred container applies. -/
def resolveOutputContainer (hasSubtitles ensureSubtitles inheritContainer : Bool)
    (inputContainer preferredContainer : List Char) : List Char :=
  if hasSubtitles && ensureSubtitles then lit "mkv"
  else if inheritContainer && supportedVideoContainers.contains inputContainer then
    inputContainer
  else preferredContainer

def natToChars (n : Nat) : List Char := (toString n).data

/-- The per-stream bitrate arguments of the re-encode branch
(processor.ts lines 547-551): for the stream at `index` with channel
count `channels`, `-b:a:{index}` and `{audioChannelBitrate * channels}k`. -/
def audioBitrateArgs (audioChannelBitrate : Nat) :
    Nat → List Nat → List (List Char)
  | _, [] => []
  | i, channels :: rest =>
    (lit "-b:a:" ++ natToChars i) ::
      (natToChars (audioChannelBitrate * channels) ++ lit "k") ::
        audioBitrateArgs audioChannelBitrate (i + 1) rest

/-- The audio argument block (processor.ts lines 541-552). Note the
copy test compares the RAW probed `input.container`, not the
normalized input container. -/
def buildAudioArgs (rawContainer : List Char) (audioChannels : List Nat)
    (outputContainer audioCodec : List Char) (audioChannelBitrate : Nat) :
    List (List Char) :=
  if 0 < audioChannels.length ∧ outputContainer ≠ lit "gif" then
    if rawContainer = outputContainer then [lit "-c:a", lit "copy"]
    else lit "-c:a" :: audioCodec :: audioBitrateArgs audioChannelBitrate 0 audioChannels
  else []

/-! ## Model scale resolution and the image rescale filter -/

inductive Model
  | cunet
  | upconv7art
  | upconv7photo
  | animevideov3
  | x4plus
  | x4plusAnime
deriving DecidableEq

/-- The scale actually produced by the upscaler, as determined in
`upscale` (processor.ts lines 94-118): the waifu2x models produce the
parsed requested scale; `realesr-animevideov3` produces 2 exactly when
the requested scale is the string `2`, else 4; the other realesrgan
models always produce 4. `none` embeds the `NaN` of a failed
`parseInt`. -/
def upscaleAchievedScale (model : Model) (scaleOption : List Char) : Option Nat :=
  match model with
  | .cunet | .upconv7art | .upconv7photo => jsParseIntDec scaleOption
  | .animevideov3 => some (if scaleOption = lit "2" then 2 else 4)
  | .x4plus | .x4plusAnime => some 4

/-- `parseInt(options.scale, 10) || 2` from `image` (processor.ts line
155): `NaN` and `0` both fall back to 2. -/
def imageOutputScale (scaleOption : List Char) : Nat :=
  match jsParseIntDec scaleOption with
  | some n => if n = 0 then 2 else n
  | none => 2

/-- JS `Math.round`: floor of the value plus one half. -/
def jsRound (q : ℚ) : ℤ := ⌊q + 1 / 2⌋

/-- The Lanczos rescale filter string of the image pipeline. -/
def mkScaleFilter (w h : ℤ) : List Char :=
  lit "scale=" ++ (toString w).data ++ lit ":" ++ (toString h).data ++
    lit ":flags=lanczos:force_original_aspect_ratio=disable"

/-- The rescale decision of the image pipeline (processor.ts lines
204-208): when the achieved scale differs from the requested output
scale, a Lanczos filter targeting `round(width * outputScale) x
round(height * outputScale)` is constructed. -/
def imageRescaleFilter (currentScale outputScale : Nat) (width height : ℕ) :
    Option (List Char) :=
  if currentScale ≠ outputScale then
    some (mkScaleFilter (jsRound ((width : ℚ) * outputScale))
      (jsRound ((height : ℚ) * outputScale)))
  else none

/-! ## The upscaler stderr percentage splitter -/

/-- Does `\d+(\.\d+)?%` match at the head of `s`? The character after a
maximal digit run can never be recovered by backtracking (shorter runs
leave a digit where `%` or `.` is required), so maximal runs are
faithful. -/
def matchPercentAt (s : List Char) : Bool :=
  let run := s.takeWhile Char.isDigit
  if run = [] then false
  else
    match s.drop run.length with
    | '%' :: _ => true
    | '.' :: r2 =>
      let run2 := r2.takeWhile Char.isDigit
      if run2 = [] then false
      else
        match r2.drop run2.length with
        | '%' :: _ => true
        | _ => false
    | _ => false

/-- First match of `/\s?(?<percent>\d+(\.\d+)?)%\s?/` over a message,
returning the integer part of the `percent` group (scanning positions
left to right; the optional surrounding `\s?` never constrains a
match). -/
def percentMatchCapture : List Char → Option (List Char)
  | [] => none
  | c :: rest =>
    if matchPercentAt (c :: rest) then some ((c :: rest).takeWhile Char.isDigit)
    else percentMatchCapture rest

inductive UpscaleEvent
  | progressEv (current total : Nat)
  | logEv (message : List Char)
deriving DecidableEq

/-- The stderr handler built inside `upscale` (processor.ts lines
131-139): a chunk with a percentage match produces a progress event
only in single-file mode (`parseInt(percent, 10) || 0` of 100); in
directory mode (a directory-clone poller is active) it produces
nothing at all; a chunk without a match is forwarded to the log. -/
def logOrProgress (dirMode : Bool) (message : List Char) : Option UpscaleEvent :=
  match percentMatchCapture message with
  | some cap =>
    if !dirMode then
      some (.progressEv
        (match jsParseIntDec cap with
          | some n => n
          | none => 0) 100)
    else none
  | none => some (.logEv message)

/-! ## File-effect traces of the image and video pipelines -/

def convertedPath (filename id : List Char) : List Char :=
  filename ++ lit "-tmp-converted-" ++ id ++ lit ".png"

def upscaledPath (filename id : List Char) : List Char :=
  filename ++ lit "-tmp-" ++ id ++ lit ".png"

def imageOutPath (filename id : List Char) : List Char :=
  filename ++ lit ".tmp-out-" ++ id

def framesDirPath (id : List Char) : List Char :=
  lit "[frames-" ++ id ++ lit "]"

def passLogPath (id : List Char) : List Char :=
  lit "drovp-upscale-passlogfile-" ++ id ++ lit "-0.log"

def videoTmpPath (filename id : List Char) : List Char :=
  filename ++ lit ".tmp" ++ id

/-- `deletePath`: remove a path from the abstract file system. -/
def fsDelete (fs : List (List Char)) (p : List Char) : List (List Char) :=
  fs.filter (· ≠ p)

inductive ImageFormat
  | jpg
  | webp
  | lossless
deriving DecidableEq

/-- The failure/effect shape of one image job: which optional stages
run and which stages fail. -/
structure ImageScenario where
  convertNeeded : Bool
  convertFails : Bool
  upscaleFails : Bool
  format : ImageFormat
  needsRescale : Bool
  transcodeFails : Bool
deriving DecidableEq

structure PipeResult where
  files : List (List Char)
  result : Option (List Char × List Char)
deriving DecidableEq

def imageJobContainer : ImageFormat → List Char
  | .jpg => lit "jpg"
  | .webp => lit "webp"
  | .lossless => lit "png"

/-- The image pipeline from the upscale stage on (processor.ts lines
190-319): the upscaler writes the temporary png; the `finally` runs
`maid.cleanup()` (draining any registered conversion temporary); on a
transcode job, ffmpeg writes the output path, and failure registers
that partial output for deletion before the final `maid.cleanup()`;
success deletes the working file and returns the output. The upscaled
working file is not registered anywhere, so a failed transcode leaves
it in place. -/
def imageSimUpscale (sc : ImageScenario) (fs maidTasks : List (List Char))
    (uPath oPath : List Char) : PipeResult :=
  let fs1 := fs ++ [uPath]
  let fs2 := maidTasks.foldl fsDelete fs1
  if sc.upscaleFails then { files := fs2, result := none }
  else
    if sc.format = .jpg ∨ sc.format = .webp ∨ sc.needsRescale then
      let fs3 := fs2 ++ [oPath]
      if sc.transcodeFails then { files := fsDelete fs3 oPath, result := none }
      else
        { files := fsDelete fs3 uPath
          result := some (oPath, imageJobContainer sc.format) }
    else { files := fs2, result := some (uPath, lit "png") }

/-- The image pipeline (processor.ts lines 152-319), starting from the
unsupported-container conversion: a needed conversion writes a
temporary png and registers it with the maid; a failed conversion runs
the cleanup and aborts. -/
def imageSim (sc : ImageScenario) (inputPath filename id : List Char) :
    PipeResult :=
  let cPath := convertedPath filename id
  let uPath := upscaledPath filename id
  let oPath := imageOutPath filename id
  let fs0 := [inputPath]
  if sc.convertNeeded then
    let fs1 := fs0 ++ [cPath]
    if sc.convertFails then { files := fsDelete fs1 cPath, result := none }
    else imageSimUpscale sc fs1 [cPath] uPath oPath
  else imageSimUpscale sc fs0 [] uPath oPath

/-- The failure shape of one video job. -/
structure VideoScenario where
  extractFails : Bool
  upscaleFails : Bool
  twoPass : Bool
  pass1Fails : Bool
  encodeFails : Bool
deriving DecidableEq

/-- The video pipeline effect trace (processor.ts lines 326-607): the
frames directory is created and registered with the maid; extraction
and frame-upscale failures abort after `maid.cleanup()`; two-pass
encoding registers the pass-log file; the final encode writes a
temporary output, registering it for deletion on failure; the
`finally` always drains the maid. -/
def videoSim (sc : VideoScenario) (inputPath filename id outputContainer : List Char) :
    PipeResult :=
  let fDir := framesDirPath id
  let pLog := passLogPath id
  let tPath := videoTmpPath filename id
  let fs0 := [inputPath] ++ [fDir]
  let maid0 := [fDir]
  if sc.extractFails then { files := maid0.foldl fsDelete fs0, result := none }
  else if sc.upscaleFails then { files := maid0.foldl fsDelete fs0, result := none }
  else
    let maid1 := if sc.twoPass then maid0 ++ [pLog] else maid0
    let fs1 := if sc.twoPass then fs0 ++ [pLog] else fs0
    if sc.twoPass ∧ sc.pass1Fails then
      { files := maid1.foldl fsDelete fs1, result := none }
    else
      let fs2 := fs1 ++ [tPath]
      if sc.encodeFails then
        { files := (maid1 ++ [tPath]).foldl fsDelete fs2, result := none }
      else
        { files := maid1.foldl fsDelete fs2
          result := some (tPath, outputContainer) }

/-! ## Claim theorems -/

/-- The value of an `SS.fff` timestamp. -/
theorem isoTimeToMS_sf (S F : List Char) (hS : allDigits S) (hSne : S ≠ [])
    (hF : allDigits F) (hFne : F ≠ []) :
    isoTimeToMS (S ++ '.' :: F) =
      some ((natOfDigits F : ℚ) / 10 ^ F.length * 1000 + natOfDigits S * 1000) := by
  have h1 : splitOnChar '.' (S ++ '.' :: F) = S :: splitOnChar '.' F :=
    splitOnChar_append _ _ _ (digits_no_dot hS)
  have h2 : splitOnChar '.' F = [F] := splitOnChar_not_mem _ _ (digits_no_dot hF)
  have h5 : splitOnChar ':' S = [S] := splitOnChar_not_mem _ _ (digits_no_colon hS)
  unfold isoTimeToMS
  rw [h1, h2]
  simp only [List.headD_cons, List.get?_cons_succ, List.get?_cons_zero]
  rw [h5]
  have hfil : List.filter (fun x => decide (x ≠ [])) [S] = [S] := by simp [hSne]
  rw [hfil]
  simp only [List.map_cons, List.map_nil]
  rw [jsParseFloatFrac_digits hF hFne, jsParseIntDec_digits hS hSne]
  simp only [List.reverse_cons, List.reverse_nil, List.nil_append,
    List.get?_cons_zero, List.get?_cons_succ, List.get?_nil, timeComponent]
  rw [if_neg hFne]
  simp

/-- **C4**: for every timestamp string of the form `H:MM:SS.fff`,
`MM:SS.fff`, `SS.fff`, or a bare seconds value, the millisecond
conversion takes the fractional part times 1000 and adds the rightmost
colon-delimited component as seconds, the next as minutes, the next as
hours, missing components contributing zero; in particular
`"1:30:40.500"` converts to 5440500 ms, `"00:00.250"` to 250 ms, and
`"45"` to 45000 ms. -/
theorem claim_C4 :
    (∀ H M S F : List Char, allDigits H → H ≠ [] → allDigits M → M ≠ [] →
      allDigits S → S ≠ [] → allDigits F → F ≠ [] →
      isoTimeToMS (H ++ ':' :: M ++ ':' :: S ++ '.' :: F) =
        some ((natOfDigits F : ℚ) / 10 ^ F.length * 1000 +
          natOfDigits S * 1000 + natOfDigits M * (1000 * 60) +
          natOfDigits H * (1000 * 60 * 60))) ∧
    (∀ M S F : List Char, allDigits M → M ≠ [] →
      allDigits S → S ≠ [] → allDigits F → F ≠ [] →
      isoTimeToMS (M ++ ':' :: S ++ '.' :: F) =
        some ((natOfDigits F : ℚ) / 10 ^ F.length * 1000 +
          natOfDigits S * 1000 + natOfDigits M * (1000 * 60))) ∧
    (∀ S F : List Char, allDigits S → S ≠ [] → allDigits F → F ≠ [] →
      isoTimeToMS (S ++ '.' :: F) =
        some ((natOfDigits F : ℚ) / 10 ^ F.length * 1000 + natOfDigits S * 1000)) ∧
    (∀ S : List Char, allDigits S → S ≠ [] →
      isoTimeToMS S = some ((natOfDigits S : ℚ) * 1000)) ∧
    isoTimeToMS (lit "1:30:40.500") = some 5440500 ∧
    isoTimeToMS (lit "00:00.250") = some 250 ∧
    isoTimeToMS (lit "45") = some 45000 := by
  refine ⟨isoTimeToMS_hms, isoTimeToMS_msf, isoTimeToMS_sf, isoTimeToMS_s, ?_, ?_, ?_⟩
  · have hv := isoTimeToMS_hms (lit "1") (lit "30") (lit "40") (lit "500")
      (by decide) (by decide) (by decide) (by decide)
      (by decide) (by decide) (by decide) (by decide)
    rw [show lit "1:30:40.500" =
        lit "1" ++ ':' :: lit "30" ++ ':' :: lit "40" ++ '.' :: lit "500" by decide,
      hv]
    norm_num [show natOfDigits (lit "500") = 500 by decide,
      show natOfDigits (lit "40") = 40 by decide,
      show natOfDigits (lit "30") = 30 by decide,
      show natOfDigits (lit "1") = 1 by decide,
      show (lit "500").length = 3 by decide]
  · have hv := isoTimeToMS_msf (lit "00") (lit "00") (lit "250")
      (by decide) (by decide) (by decide) (by decide) (by decide) (by decide)
    rw [show lit "00:00.250" = lit "00" ++ ':' :: lit "00" ++ '.' :: lit "250" by decide,
      hv]
    norm_num [show natOfDigits (lit "250") = 250 by decide,
      show natOfDigits (lit "00") = 0 by decide,
      show (lit "250").length = 3 by decide]
  · have hv := isoTimeToMS_s (lit "45") (by decide) (by decide)
    rw [hv]
    norm_num [show natOfDigits (lit "45") = 45 by decide]

/-- Witness for C4: the `SS.fff` clause applied to `"2.5"`. -/
theorem claim_C4_witness :
    isoTimeToMS (lit "2" ++ '.' :: lit "5") =
      some ((natOfDigits (lit "5") : ℚ) / 10 ^ (lit "5").length * 1000 +
        natOfDigits (lit "2") * 1000) :=
  claim_C4.2.2.1 (lit "2") (lit "5") (by decide) (by decide) (by decide) (by decide)

/-- **C2**: with source `{a.png, b.png, c.png}` and destination listings
`{a.png}`, `{a.png, b.png}`, `{a.png, b.png, c.png}` over three ticks,
the poller reports `(1,3)`, `(2,3)`, `(3,3)` and on each tick deletes
from the source exactly the file newly detected in the destination. -/
theorem claim_C2 :
    (dirCloneTick [lit "a.png", lit "b.png", lit "c.png"] [lit "a.png"]
        ⟨none, []⟩).report = (1, 3) ∧
    (dirCloneTick [lit "a.png", lit "b.png", lit "c.png"] [lit "a.png"]
        ⟨none, []⟩).deleted = [lit "a.png"] ∧
    (dirCloneTick [lit "a.png", lit "b.png", lit "c.png"]
        [lit "a.png", lit "b.png"]
        (dirCloneTick [lit "a.png", lit "b.png", lit "c.png"] [lit "a.png"]
          ⟨none, []⟩).state).report = (2, 3) ∧
    (dirCloneTick [lit "a.png", lit "b.png", lit "c.png"]
        [lit "a.png", lit "b.png"]
        (dirCloneTick [lit "a.png", lit "b.png", lit "c.png"] [lit "a.png"]
          ⟨none, []⟩).state).deleted = [lit "b.png"] ∧
    (dirCloneTick [lit "a.png", lit "b.png", lit "c.png"]
        [lit "a.png", lit "b.png", lit "c.png"]
        (dirCloneTick [lit "a.png", lit "b.png", lit "c.png"]
          [lit "a.png", lit "b.png"]
          (dirCloneTick [lit "a.png", lit "b.png", lit "c.png"] [lit "a.png"]
            ⟨none, []⟩).state).state).report = (3, 3) ∧
    (dirCloneTick [lit "a.png", lit "b.png", lit "c.png"]
        [lit "a.png", lit "b.png", lit "c.png"]
        (dirCloneTick [lit "a.png", lit "b.png", lit "c.png"]
          [lit "a.png", lit "b.png"]
          (dirCloneTick [lit "a.png", lit "b.png", lit "c.png"] [lit "a.png"]
            ⟨none, []⟩).state).state).deleted = [lit "c.png"] := by
  decide

/-- Registering tasks one by one accumulates them in order. -/
theorem maid_register (ts : List (MaidTask σ ε)) (acc : List (MaidTask σ ε)) :
    ts.foldl Maid.task ⟨acc⟩ = ⟨acc ++ ts⟩ := by
  induction ts generalizing acc with
  | nil => simp
  | cons t ts ih =>
    simp only [List.foldl_cons, Maid.task]
    rw [ih]
    simp

/-- Running the indexed tasks in order appends their indices in order
to the trace, regardless of which tasks throw. -/
theorem maid_cleanup_trace (spec : List (Nat × Bool)) (acc : List Nat) :
    (spec.map fun p => indexedTask p.1 p.2).foldl Maid.runTask acc =
      acc ++ spec.map Prod.fst := by
  induction spec generalizing acc with
  | nil => simp
  | cons p ps ih =>
    simp only [List.map_cons, List.foldl_cons, Maid.runTask, indexedTask]
    rw [ih]
    simp

/-- **C3**: registering N observable tasks (each recording its index
and then possibly throwing) and calling `cleanup()` executes all N
exactly once, in registration order — a throwing task blocks nothing
and no error reaches the caller (`cleanup` returns a world, never an
error) — and afterwards the ledger is empty. -/
theorem claim_C3 (spec : List (Nat × Bool)) :
    ((spec.map fun p => indexedTask p.1 p.2).foldl Maid.task ⟨[]⟩ =
      (⟨spec.map fun p => indexedTask p.1 p.2⟩ : Maid (List Nat) Unit)) ∧
    (Maid.cleanup ⟨spec.map fun p => indexedTask p.1 p.2⟩ []).1 =
      spec.map Prod.fst ∧
    (Maid.cleanup ⟨spec.map fun p => indexedTask p.1 p.2⟩ []).2.tasks = [] := by
  refine ⟨?_, ?_, rfl⟩
  · simpa using maid_register _ []
  · simpa using maid_cleanup_trace spec []

/-- Every event a single splitter invocation emits is well formed: a
progress event is only emitted under the `milliseconds <= duration`
guard. -/
theorem splitterProgressEvents_ok (st : SplitterState) (m : List Char) :
    ((splitterProgressEvents st m).all eventOk) = true := by
  unfold splitterProgressEvents
  split
  · split
    · split
      · split
        · simp [eventOk, *]
        · rfl
      · rfl
    · rfl
  · rfl

theorem splitterStep_events_ok (st : SplitterState) (m : List Char) :
    ((splitterStep st m).2.all eventOk) = true := by
  unfold splitterStep
  split
  · exact splitterProgressEvents_ok st m
  · rfl

theorem runSplitter_events_ok (st : SplitterState) (msgs : List (List Char)) :
    ((runSplitter st msgs).2.all eventOk) = true := by
  induction msgs generalizing st with
  | nil => rfl
  | cons m ms ih =>
    simp only [runSplitter, List.all_append, Bool.and_eq_true]
    exact ⟨splitterStep_events_ok st m, ih _⟩

/-- Once the duration-will-not-happen flag is set, one more step keeps
it set and leaves the duration untouched. -/
theorem splitterStep_preserves (st : SplitterState) (m : List Char)
    (h : st.durationWontHappen = true) :
    (splitterStep st m).1.duration = st.duration ∧
    (splitterStep st m).1.durationWontHappen = true := by
  unfold splitterStep
  split
  · exact ⟨rfl, rfl⟩
  · exact ⟨by simp [splitterNewDuration, h], h⟩

theorem runSplitter_preserves (st : SplitterState) (msgs : List (List Char))
    (h : st.durationWontHappen = true) :
    (runSplitter st msgs).1.duration = st.duration ∧
    (runSplitter st msgs).1.durationWontHappen = true := by
  induction msgs generalizing st with
  | nil => exact ⟨rfl, h⟩
  | cons m ms ih =>
    simp only [runSplitter]
    have hs := splitterStep_preserves st m h
    have hr := ih (splitterStep st m).1 hs.2
    exact ⟨by rw [hr.1, hs.1], hr.2⟩

/-- A `frame=`/`size=` message sets the flag (and never touches the
duration). -/
theorem splitterStep_sets (st : SplitterState) (m : List Char)
    (h : isProgressChunk m = true) :
    (splitterStep st m).1.durationWontHappen = true ∧
    (splitterStep st m).1.duration = st.duration := by
  unfold isProgressChunk at h
  unfold splitterStep
  rw [if_pos h]
  exact ⟨rfl, rfl⟩

theorem runSplitter_append (st : SplitterState) (xs ys : List (List Char)) :
    runSplitter st (xs ++ ys) =
      ((runSplitter (runSplitter st xs).1 ys).1,
        (runSplitter st xs).2 ++ (runSplitter (runSplitter st xs).1 ys).2) := by
  induction xs generalizing st with
  | nil => simp [runSplitter]
  | cons x xs ih =>
    simp only [List.cons_append, runSplitter, List.append_eq]
    rw [ih]
    simp [List.append_assoc]

/-- **C5**: in any message sequence, once some message with a trimmed
`frame=`/`size=` prefix has been processed, the flag stays set and no
later message changes the established duration; and every progress
event emitted over the whole sequence satisfies elapsed <= total. -/
theorem claim_C5 (pre : List (List Char)) (m : List Char) (post : List (List Char))
    (hm : isProgressChunk m = true) :
    (runSplitter (runSplitter initSplitter (pre ++ [m])).1 post).1.duration =
      (runSplitter initSplitter (pre ++ [m])).1.duration ∧
    (runSplitter (runSplitter initSplitter (pre ++ [m])).1 post).1.durationWontHappen
      = true ∧
    ((runSplitter initSplitter (pre ++ [m] ++ post)).2.all eventOk) = true := by
  have hstep : ∀ st : SplitterState,
      (runSplitter st [m]).1.durationWontHappen = true := by
    intro st
    simp only [runSplitter]
    exact (splitterStep_sets st m hm).1
  have hflag : (runSplitter initSplitter (pre ++ [m])).1.durationWontHappen = true := by
    rw [runSplitter_append]
    exact hstep _
  have hp := runSplitter_preserves (runSplitter initSplitter (pre ++ [m])).1 post hflag
  exact ⟨hp.1, hp.2, runSplitter_events_ok _ _⟩

/-- Witness for C5 at a concrete three-message stream. -/
theorem claim_C5_witness :
    (runSplitter (runSplitter initSplitter
        ([lit " Duration: 00:01:00.00, x"] ++ [lit "frame=1 time=00:00:30.00"])).1
      [lit " Duration: 00:02:00.00, x"]).1.duration =
      (runSplitter initSplitter
        ([lit " Duration: 00:01:00.00, x"] ++ [lit "frame=1 time=00:00:30.00"])).1.duration ∧
    (runSplitter (runSplitter initSplitter
        ([lit " Duration: 00:01:00.00, x"] ++ [lit "frame=1 time=00:00:30.00"])).1
      [lit " Duration: 00:02:00.00, x"]).1.durationWontHappen = true ∧
    ((runSplitter initSplitter
        ([lit " Duration: 00:01:00.00, x"] ++ [lit "frame=1 time=00:00:30.00"]
          ++ [lit " Duration: 00:02:00.00, x"])).2.all eventOk) = true :=
  claim_C5 [lit " Duration: 00:01:00.00, x"] (lit "frame=1 time=00:00:30.00")
    [lit " Duration: 00:02:00.00, x"] (by decide)

/-- Data events leave the executor pending. -/
theorem execute_pre_pending (pre : List ExecEvent)
    (h : pre.all nonTerminalEvent = true) :
    pre.foldl executeStep .pending = .pending := by
  induction pre with
  | nil => rfl
  | cons e es ih =>
    simp only [List.all_cons, Bool.and_eq_true] at h
    cases e with
    | stdoutData c => exact ih h.2
    | stderrData c => exact ih h.2
    | procError msg => simp [nonTerminalEvent] at h
    | close code => simp [nonTerminalEvent] at h

/-- A settled outcome is final: later events are ignored. -/
theorem execute_settled (o : ExecOutcome) (h : o ≠ .pending)
    (evs : List ExecEvent) : evs.foldl executeStep o = o := by
  induction evs with
  | nil => rfl
  | cons e es ih =>
    have hstep : executeStep o e = o := by
      cases o with
      | pending => exact absurd rfl h
      | rejectedErr m => rfl
      | rejectedExit m => rfl
      | resolved => rfl
    simp only [List.foldl_cons, hstep]
    exact ih

/-- **C8 counterexample**: a nonzero exit after captured stderr output
rejects with the message `Process exited with code 7.`, which does not
carry the captured output `boom` (nor any other captured output) — the
claim that the rejection carries the last captured output is false. -/
theorem claim_C8_counterexample :
    executeOutcome [.stderrData (lit "boom"), .close (some 7)] =
      .rejectedExit (lit "Process exited with code 7.") ∧
    containsSub (lit "boom") (lit "Process exited with code 7.") = false := by
  decide

/-- **C8 (amended)**: after any run of data events, a process error
event rejects with that error; a close with positive code rejects with
an error carrying the exit code (only) in its message; a close with
code zero resolves with no value. Later events never change a settled
outcome. -/
theorem claim_C8_amended (pre : List ExecEvent)
    (h : pre.all nonTerminalEvent = true) :
    (∀ (e : List Char) (rest : List ExecEvent),
      executeOutcome (pre ++ .procError e :: rest) = .rejectedErr e) ∧
    (∀ (c : Int) (rest : List ExecEvent), 0 < c →
      executeOutcome (pre ++ .close (some c) :: rest) =
        .rejectedExit (lit "Process exited with code " ++ intToChars c ++ lit ".")) ∧
    (∀ rest : List ExecEvent,
      executeOutcome (pre ++ .close (some 0) :: rest) = .resolved) := by
  refine ⟨?_, ?_, ?_⟩
  · intro e rest
    unfold executeOutcome
    rw [List.foldl_append, execute_pre_pending pre h]
    simp only [List.foldl_cons]
    exact execute_settled _ (by simp [executeStep]) rest
  · intro c rest hc
    unfold executeOutcome
    rw [List.foldl_append, execute_pre_pending pre h]
    simp only [List.foldl_cons]
    have hstep : executeStep .pending (.close (some c)) =
        .rejectedExit (lit "Process exited with code " ++ intToChars c ++ lit ".") := by
      simp [executeStep, hc]
    rw [hstep]
    exact execute_settled _ (by simp) rest
  · intro rest
    unfold executeOutcome
    rw [List.foldl_append, execute_pre_pending pre h]
    simp only [List.foldl_cons]
    have hstep : executeStep .pending (.close (some 0)) = .resolved := by
      simp [executeStep]
    rw [hstep]
    exact execute_settled _ (by simp) rest

/-- Witness for C8 (amended) after one stderr data chunk. -/
theorem claim_C8_amended_witness :
    ([ExecEvent.stderrData (lit "x")].all nonTerminalEvent = true) ∧
    executeOutcome ([ExecEvent.stderrData (lit "x")] ++ .close (some 0) :: []) =
      .resolved :=
  ⟨by decide, (claim_C8_amended [.stderrData (lit "x")] (by decide)).2.2 []⟩

/-- **C6**: a video input carrying at least one subtitle stream with
the ensure-subtitles option enabled always resolves to the `mkv`
output container, for every inherit-container setting, every preferred
container, and every probed input container and file extension. -/
theorem claim_C6 {α : Type} (subtitlesStreams : List α)
    (h : subtitlesStreams ≠ []) (inheritContainer : Bool)
    (rawContainer inputExtension preferredContainer : List Char) :
    resolveOutputContainer (decide (0 < subtitlesStreams.length)) true
      inheritContainer
      (normalizeInputContainer rawContainer inputExtension
        (decide (0 < subtitlesStreams.length)))
      preferredContainer = lit "mkv" := by
  have hlen : decide (0 < subtitlesStreams.length) = true := by
    simp [List.length_pos, h]
  unfold resolveOutputContainer
  rw [hlen]
  simp

/-- Witness for C6 with one subtitle stream and adversarial settings. -/
theorem claim_C6_witness :
    resolveOutputContainer (decide (0 < ([()] : List Unit).length)) true false
      (normalizeInputContainer (lit "avi") (lit "avi")
        (decide (0 < ([()] : List Unit).length)))
      (lit "mp4") = lit "mkv" :=
  claim_C6 [()] (by decide) false (lit "avi") (lit "avi") (lit "mp4")

/-- **C9 counterexample**: an mkv input (probed container id
`matroska,webm`, extension `mkv`, no subtitles) with inherit-container
enabled resolves to the `mkv` output container — the input container
and the output container match — yet the audio block re-encodes
(`-c:a aac` with scaled bitrate) instead of copying, because the code
compares the raw id `matroska,webm` against `mkv`. -/
theorem claim_C9_counterexample :
    normalizeInputContainer (lit "matroska,webm") (lit "mkv") false = lit "mkv" ∧
    resolveOutputContainer false false true (lit "mkv") (lit "mp4") = lit "mkv" ∧
    buildAudioArgs (lit "matroska,webm") [2] (lit "mkv") (lit "aac") 96 =
      [lit "-c:a", lit "aac", lit "-b:a:0", lit "192k"] ∧
    buildAudioArgs (lit "matroska,webm") [2] (lit "mkv") (lit "aac") 96 ≠
      [lit "-c:a", lit "copy"] := by
  decide

/-- The per-stream bitrate arguments: stream `k` (counting from the
enumeration start `i`) contributes `-b:a:{i+k}` and
`{bitrate * channels_k}k`. -/
theorem audioBitrateArgs_get? (bitrate : Nat) (chans : List Nat) (i k ch : Nat)
    (hch : chans.get? k = some ch) :
    (audioBitrateArgs bitrate i chans).get? (2 * k) =
      some (lit "-b:a:" ++ natToChars (i + k)) ∧
    (audioBitrateArgs bitrate i chans).get? (2 * k + 1) =
      some (natToChars (bitrate * ch) ++ lit "k") := by
  induction chans generalizing i k with
  | nil => simp at hch
  | cons c rest ih =>
    cases k with
    | zero =>
      simp only [List.get?_cons_zero, Option.some.injEq] at hch
      subst hch
      exact ⟨rfl, rfl⟩
    | succ k =>
      simp only [List.get?_cons_succ] at hch
      have h2 : 2 * (k + 1) = 2 * k + 1 + 1 := by ring
      rw [h2]
      simp only [audioBitrateArgs, List.get?_cons_succ]
      have := ih (i + 1) k hch
      rw [show i + 1 + k = i + (k + 1) by ring] at this
      exact this

/-- **C9 (amended)**: with at least one audio stream and a non-gif
output container, the audio streams are copied exactly when the RAW
probed container id equals the output container; otherwise they are
re-encoded with the configured codec and, for each stream, a bitrate
of the per-channel bitrate times that stream's channel count. -/
theorem claim_C9_amended (rawContainer : List Char) (audioChannels : List Nat)
    (outputContainer audioCodec : List Char) (audioChannelBitrate : Nat)
    (hne : audioChannels ≠ []) (hgif : outputContainer ≠ lit "gif") :
    (rawContainer = outputContainer →
      buildAudioArgs rawContainer audioChannels outputContainer audioCodec
        audioChannelBitrate = [lit "-c:a", lit "copy"]) ∧
    (rawContainer ≠ outputContainer →
      buildAudioArgs rawContainer audioChannels outputContainer audioCodec
          audioChannelBitrate =
        lit "-c:a" :: audioCodec ::
          audioBitrateArgs audioChannelBitrate 0 audioChannels ∧
      ∀ k ch, audioChannels.get? k = some ch →
        (audioBitrateArgs audioChannelBitrate 0 audioChannels).get? (2 * k) =
          some (lit "-b:a:" ++ natToChars k) ∧
        (audioBitrateArgs audioChannelBitrate 0 audioChannels).get? (2 * k + 1) =
          some (natToChars (audioChannelBitrate * ch) ++ lit "k")) := by
  have hcond : 0 < audioChannels.length ∧ outputContainer ≠ lit "gif" :=
    ⟨List.length_pos.mpr hne, hgif⟩
  constructor
  · intro heq
    unfold buildAudioArgs
    rw [if_pos hcond, if_pos heq]
  · intro hneq
    refine ⟨?_, ?_⟩
    · unfold buildAudioArgs
      rw [if_pos hcond, if_neg hneq]
    · intro k ch hch
      have := audioBitrateArgs_get? audioChannelBitrate audioChannels 0 k ch hch
      simpa using this

/-- Witness for C9 (amended): one stereo stream, mp4 to mp4 copies;
mkv raw id to mkv re-encodes at 2 x 96 kbps. -/
theorem claim_C9_amended_witness :
    buildAudioArgs (lit "mp4") [2] (lit "mp4") (lit "aac") 96 =
      [lit "-c:a", lit "copy"] ∧
    buildAudioArgs (lit "matroska,webm") [2] (lit "mkv") (lit "aac") 96 =
      lit "-c:a" :: lit "aac" :: audioBitrateArgs 96 0 [2] :=
  ⟨(claim_C9_amended (lit "mp4") [2] (lit "mp4") (lit "aac") 96 (by decide)
      (by decide)).1 rfl,
    ((claim_C9_amended (lit "matroska,webm") [2] (lit "mkv") (lit "aac") 96
      (by decide) (by decide)).2 (by decide)).1⟩

/-- **C1**: with a fixed-4x-only model (`realesrgan-x4plus`,
`realesrgan-x4plus-anime`, or `realesr-animevideov3` at a requested
scale other than 2) and a requested scale of 2, the upscale step
returns achieved scale 4, and the image pipeline then constructs a
Lanczos downscale filter targeting `round(width * 2) x round(height * 2)`. -/
theorem claim_C1 (model : Model) (width height : ℕ)
    (hm : model = .x4plus ∨ model = .x4plusAnime ∨
      (model = .animevideov3 ∧ lit "2" ≠ lit "2")) :
    upscaleAchievedScale model (lit "2") = some 4 ∧
    imageRescaleFilter 4 (imageOutputScale (lit "2")) width height =
      some (mkScaleFilter (jsRound ((width : ℚ) * 2))
        (jsRound ((height : ℚ) * 2))) := by
  have hscale : imageOutputScale (lit "2") = 2 := by decide
  constructor
  · rcases hm with h | h | ⟨h, hne⟩
    · rw [h]; rfl
    · rw [h]; rfl
    · exact absurd rfl hne
  · rw [hscale]
    unfold imageRescaleFilter
    rw [if_pos (by decide)]
    norm_num

/-- Witness for C1 at `realesrgan-x4plus`, a 10 x 20 image. -/
theorem claim_C1_witness :
    upscaleAchievedScale .x4plus (lit "2") = some 4 ∧
    imageRescaleFilter 4 (imageOutputScale (lit "2")) 10 20 =
      some (mkScaleFilter (jsRound ((10 : ℚ) * 2)) (jsRound ((20 : ℚ) * 2))) :=
  claim_C1 .x4plus 10 20 (Or.inl rfl)

/-- **C10**: in directory mode, a stderr chunk matching the percentage
pattern produces no event at all: no progress event (progress comes
only from the directory-clone poller) and no log line. -/
theorem claim_C10 (message : List Char)
    (h : (percentMatchCapture message).isSome = true) :
    logOrProgress true message = none := by
  unfold logOrProgress
  match hcap : percentMatchCapture message with
  | some cap => simp
  | none => rw [hcap] at h; simp at h

/-- Witness for C10 at the chunk `35.5%`. -/
theorem claim_C10_witness :
    (percentMatchCapture (lit "35.5%")).isSome = true ∧
    logOrProgress true (lit "35.5%") = none :=
  ⟨by decide, claim_C10 (lit "35.5%") (by decide)⟩

theorem fsDelete_not_mem (fs : List (List Char)) (p : List Char) :
    p ∉ fsDelete fs p := by
  simp [fsDelete, List.mem_filter]

theorem mem_fsDelete (fs : List (List Char)) (p q : List Char)
    (hq : q ∈ fs) (hne : q ≠ p) : q ∈ fsDelete fs p := by
  simp [fsDelete, List.mem_filter, hq, hne]

theorem not_mem_fsDelete (fs : List (List Char)) (p q : List Char)
    (h : q ∉ fs) : q ∉ fsDelete fs p := by
  intro hm
  exact h (List.mem_filter.mp hm).1

/-- The upscaled working file and the conversion temporary never share
a path (their fixed name segments differ in length by 10). -/
theorem upscaledPath_ne_convertedPath (filename id : List Char) :
    upscaledPath filename id ≠ convertedPath filename id := by
  intro h
  have hl := congrArg List.length h
  simp only [upscaledPath, convertedPath, List.length_append,
    show (lit "-tmp-").length = 5 from rfl,
    show (lit "-tmp-converted-").length = 15 from rfl,
    show (lit ".png").length = 4 from rfl] at hl
  omega

/-- The upscaled working file and the transcode output never share a
path (after the shared filename prefix, one continues with a hyphen
and the other with a dot). -/
theorem upscaledPath_ne_imageOutPath (filename id : List Char) :
    upscaledPath filename id ≠ imageOutPath filename id := by
  intro h
  have h1 : upscaledPath filename id =
      filename ++ (lit "-tmp-" ++ (id ++ lit ".png")) := by
    simp [upscaledPath, List.append_assoc]
  have h2 : imageOutPath filename id = filename ++ (lit ".tmp-out-" ++ id) := by
    simp [imageOutPath, List.append_assoc]
  rw [h1, h2] at h
  have h3 := List.append_cancel_left h
  have ha : (lit "-tmp-" ++ (id ++ lit ".png")).get? 0 = some ('-') := rfl
  rw [h3] at ha
  have hb : (lit ".tmp-out-" ++ id).get? 0 = some ('.') := rfl
  rw [hb] at ha
  simp at ha

/-- **C7 counterexample**: a jpg transcode failing after a successful
upscale (no conversion needed, no rescale) leaves the upscaled
intermediate png on disk while returning no result — the claim that
the upscaled-but-not-finalized intermediate is never silently kept is
false for the image pipeline. -/
theorem claim_C7_counterexample :
    upscaledPath (lit "in") (lit "1") ∈
      (imageSim ⟨false, false, false, .jpg, false, true⟩ (lit "in.png")
        (lit "in") (lit "1")).files ∧
    (imageSim ⟨false, false, false, .jpg, false, true⟩ (lit "in.png")
      (lit "in") (lit "1")).result = none := by
  decide

/-- A failed transcode after a successful upscale: no result, the
partial output deleted, the upscaled working file still present. -/
theorem imageSimUpscale_transcodeFail (sc : ImageScenario)
    (fs maidTasks : List (List Char)) (uPath oPath : List Char)
    (hu : sc.upscaleFails = false) (ht : sc.transcodeFails = true)
    (hjob : sc.format = .jpg ∨ sc.format = .webp ∨ sc.needsRescale = true)
    (hmem : uPath ∈ maidTasks.foldl fsDelete (fs ++ [uPath]))
    (hne : uPath ≠ oPath) :
    (imageSimUpscale sc fs maidTasks uPath oPath).result = none ∧
    oPath ∉ (imageSimUpscale sc fs maidTasks uPath oPath).files ∧
    uPath ∈ (imageSimUpscale sc fs maidTasks uPath oPath).files := by
  unfold imageSimUpscale
  simp only [hu, Bool.false_eq_true, if_false]
  rw [if_pos hjob]
  simp only [ht, if_true]
  refine ⟨by trivial, fsDelete_not_mem _ _, ?_⟩
  exact mem_fsDelete _ _ _ (List.mem_append.mpr (Or.inl hmem)) hne

/-- **C7 (amended)**: whenever a downstream transcode/encode step fails
after the upscale step already succeeded, the partial output artifact
of the failed step is deleted and no partial output is returned as the
job's final result; the video pipeline also always removes its
intermediate frames directory, but the image pipeline leaves the
upscaled-but-not-finalized intermediate png on disk. -/
theorem claim_C7_amended (sc : ImageScenario) (vc : VideoScenario)
    (inputPath filename id outputContainer : List Char)
    (hic : sc.convertFails = false) (hiu : sc.upscaleFails = false)
    (hit : sc.transcodeFails = true)
    (hjob : sc.format = .jpg ∨ sc.format = .webp ∨ sc.needsRescale = true)
    (hve : vc.extractFails = false) (hvu : vc.upscaleFails = false)
    (hvp : vc.pass1Fails = false) (hven : vc.encodeFails = true) :
    (imageSim sc inputPath filename id).result = none ∧
    imageOutPath filename id ∉ (imageSim sc inputPath filename id).files ∧
    upscaledPath filename id ∈ (imageSim sc inputPath filename id).files ∧
    (videoSim vc inputPath filename id outputContainer).result = none ∧
    videoTmpPath filename id ∉
      (videoSim vc inputPath filename id outputContainer).files ∧
    framesDirPath id ∉
      (videoSim vc inputPath filename id outputContainer).files := by
  have hne1 := upscaledPath_ne_imageOutPath filename id
  have hne2 := upscaledPath_ne_convertedPath filename id
  have himg : (imageSim sc inputPath filename id).result = none ∧
      imageOutPath filename id ∉ (imageSim sc inputPath filename id).files ∧
      upscaledPath filename id ∈ (imageSim sc inputPath filename id).files := by
    unfold imageSim
    by_cases hconv : sc.convertNeeded = true
    · simp only [hconv, if_true, hic, Bool.false_eq_true, if_false]
      refine imageSimUpscale_transcodeFail sc _ _ _ _ hiu hit hjob ?_ hne1
      simp only [List.foldl_cons, List.foldl_nil]
      exact mem_fsDelete _ _ _ (by simp) hne2
    · simp only [Bool.not_eq_true] at hconv
      simp only [hconv, Bool.false_eq_true, if_false]
      refine imageSimUpscale_transcodeFail sc _ _ _ _ hiu hit hjob ?_ hne1
      simp
  have hvid : (videoSim vc inputPath filename id outputContainer).result = none ∧
      videoTmpPath filename id ∉
        (videoSim vc inputPath filename id outputContainer).files ∧
      framesDirPath id ∉
        (videoSim vc inputPath filename id outputContainer).files := by
    unfold videoSim
    simp only [hve, hvu, hvp, hven, Bool.false_eq_true, if_false, and_false,
      if_true, and_true]
    by_cases htp : vc.twoPass = true
    · simp only [htp, if_true, List.foldl_cons, List.foldl_nil]
      refine ⟨by trivial, fsDelete_not_mem _ _, ?_⟩
      exact not_mem_fsDelete _ _ _
        (not_mem_fsDelete _ _ _ (fsDelete_not_mem _ _))
    · simp only [Bool.not_eq_true] at htp
      simp only [htp, Bool.false_eq_true, if_false, List.foldl_cons,
        List.foldl_nil]
      refine ⟨by trivial, fsDelete_not_mem _ _, ?_⟩
      exact not_mem_fsDelete _ _ _ (fsDelete_not_mem _ _)
  exact ⟨himg.1, himg.2.1, himg.2.2, hvid.1, hvid.2.1, hvid.2.2⟩

/-- Witness for C7 (amended) at a concrete image and video failure. -/
theorem claim_C7_amended_witness :
    (imageSim ⟨true, false, false, .webp, false, true⟩ (lit "photo.bmp")
      (lit "photo") (lit "7")).result = none ∧
    imageOutPath (lit "photo") (lit "7") ∉
      (imageSim ⟨true, false, false, .webp, false, true⟩ (lit "photo.bmp")
        (lit "photo") (lit "7")).files ∧
    upscaledPath (lit "photo") (lit "7") ∈
      (imageSim ⟨true, false, false, .webp, false, true⟩ (lit "photo.bmp")
        (lit "photo") (lit "7")).files ∧
    (videoSim ⟨false, false, true, false, true⟩ (lit "photo.bmp") (lit "photo")
      (lit "7") (lit "mp4")).result = none ∧
    videoTmpPath (lit "photo") (lit "7") ∉
      (videoSim ⟨false, false, true, false, true⟩ (lit "photo.bmp") (lit "photo")
        (lit "7") (lit "mp4")).files ∧
    framesDirPath (lit "7") ∉
      (videoSim ⟨false, false, true, false, true⟩ (lit "photo.bmp") (lit "photo")
        (lit "7") (lit "mp4")).files :=
  claim_C7_amended ⟨true, false, false, .webp, false, true⟩
    ⟨false, false, true, false, true⟩ (lit "photo.bmp") (lit "photo") (lit "7")
    (lit "mp4") rfl rfl rfl (Or.inr (Or.inl rfl)) rfl rfl rfl rfl

end Upscale
